import Mathlib

/-!
Shallow embedding of the exceptional-point (EP) simulation core:

* `src/EP_Helpers.py` — `c_eig` (biorthogonally normalized eigensolver
  wrapper) and `c_trapz` (complex trapezoidal quadrature);
* `src/ep/base.py` — `Base._get_c_eigensystem` (eigenvalue-trajectory
  discontinuity detection and correction), `Base._get_gain_state`
  (gain/loss branch selection) and `Base._get_init_state` (initial state
  construction);
* `src/ep/waveguide.py` — `Waveguide.__init__`, `Waveguide.H` and
  `Waveguide.get_cycle_parameters` (loop trajectories).

Floating point numbers are embedded as real numbers, complex arrays as
lists of complex numbers.  `np.arccos` applied outside `[-1, 1]` yields
NaN (it does not raise); a NaN-valued float is embedded as `none` in
`Option ℝ`.  A raised Python exception is embedded as `Except.error`
carrying the message.
-/

noncomputable section

namespace EP

/-- A length-2 complex vector (one eigenvector). -/
abbrev Vec2 := ℂ × ℂ

/-- One time sample of a two-branch family of eigenvectors:
`(branch 0, branch 1)`. -/
abbrev BPair := Vec2 × Vec2

/-- A 2×2 complex matrix, stored as its two rows. -/
abbrev Mat2 := Vec2 × Vec2

/-! ### `src/EP_Helpers.py`: `c_trapz` (lines 106-122) -/

/-- Real trapezoidal rule with constant step `dx`, as computed by
`np.trapz(y, dx=dx)`: the sum of `dx * (y i + y (i+1)) / 2` over
consecutive pairs (`0` on an empty or singleton input). -/
def trapz (ys : List ℝ) (dx : ℝ) : ℝ :=
  ((ys.zip ys.tail).map (fun p => dx * (p.1 + p.2) / 2)).sum

/-- `c_trapz(f, dx)` from `src/EP_Helpers.py` lines 106-122: integrates
real and imaginary parts separately with the real trapezoidal rule and
recombines `real_int + 1j*imag_int`. -/
def c_trapz (f : List ℂ) (dx : ℝ) : ℂ :=
  ((trapz (f.map Complex.re) dx : ℝ) : ℂ) +
    ((trapz (f.map Complex.im) dx : ℝ) : ℂ) * Complex.I

/-- The complex trapezoidal integral computed directly over `ℂ`
(specification-level definition used to state what `c_trapz` returns). -/
def trapz_complex (f : List ℂ) (dx : ℝ) : ℂ :=
  ((f.zip f.tail).map (fun p => (dx : ℂ) * (p.1 + p.2) / 2)).sum

/-! ### `src/EP_Helpers.py`: `c_eig` (lines 33-103) -/

/-- Plain (bilinear, conjugation-free) dot product of two length-2
complex vectors, as computed by `ndarray.dot` on complex arrays. -/
def dot (a b : Vec2) : ℂ := a.1 * b.1 + a.2 * b.2

/-- Componentwise complex conjugation of a length-2 vector
(`ndarray.conj()`). -/
def conjVec (v : Vec2) : Vec2 := ((starRingEnd ℂ) v.1, (starRingEnd ℂ) v.2)

/-- Divide a length-2 vector componentwise by a complex scalar. -/
def vdiv (v : Vec2) (z : ℂ) : Vec2 := (v.1 / z, v.2 / z)

/-- Componentwise product of two length-2 vectors (numpy `*` on
shape-(2,) arrays). -/
def vmul (a b : Vec2) : Vec2 := (a.1 * b.1, a.2 * b.2)

/-- Componentwise sum of two length-2 vectors. -/
def vadd (a b : Vec2) : Vec2 := (a.1 + b.1, a.2 + b.2)

/-- Scalar multiple of a length-2 vector. -/
def smul (z : ℂ) (v : Vec2) : Vec2 := (z * v.1, z * v.2)

/-- `c_norm = lambda ev_l, ev_r: np.sqrt(ev_l.dot(ev_r))`
(`src/EP_Helpers.py` line 85): the principal complex square root of the
biorthogonal product, embedded as the complex power `(· ^ (1/2 : ℂ))`. -/
def c_norm (ev_l ev_r : Vec2) : ℂ := (dot ev_l ev_r) ^ ((1 : ℂ) / 2)

/-- Result record of `c_eig(H, left=True)`:
`return eVals, eVecs_l, eVecs_r`. -/
structure CEigResult where
  eVals : ℂ × ℂ
  eVecs_l : BPair
  eVecs_r : BPair

/-- `c_eig` from `src/EP_Helpers.py` lines 33-103, as a function of the
raw output of `scipy.linalg.eig(H, left=True)` (the underlying LAPACK
solve is external to the repository, so `c_eig` is embedded as the
transformation it applies to the solver's eigenvalues `eVals`, raw left
vectors `eVecs_l` and raw right vectors `eVecs_r`):
the raw left vectors are conjugated (`eVecs_l = eVecs_l.conj()`), then
for each branch `n` the left vector is divided by `N**2` where
`N = c_norm(eVecs_l[:,n], eVecs_r[:,n])` (line 93); the right vectors
are returned unmodified. -/
def c_eig (eVals : ℂ × ℂ) (eVecs_l eVecs_r : BPair) : CEigResult :=
  let l : BPair := (conjVec eVecs_l.1, conjVec eVecs_l.2)
  let N0 : ℂ := c_norm l.1 eVecs_r.1
  let N1 : ℂ := c_norm l.2 eVecs_r.2
  ⟨eVals, (vdiv l.1 (N0 ^ 2), vdiv l.2 (N1 ^ 2)), eVecs_r⟩

/-! ### `src/ep/base.py`: the eigensystem trajectory -/

/-- The per-sample eigensystem arrays of `Base`: `eVals[n]` is the pair
of eigenvalues at time sample `n`, `eVecs_r[n]`/`eVecs_l[n]` the pairs
of right/left eigenvectors (branch 0, branch 1). -/
structure EigenSystem where
  eVals : List (ℂ × ℂ)
  eVecs_r : List BPair
  eVecs_l : List BPair

/-- Discontinuity tolerance `epsilon = 1e-3`
(`src/ep/base.py` line 211). -/
def epsilon : ℝ := 1 / 1000

/-- Multiply the branch-1 vector of a sample componentwise by a fixed
length-2 factor, leaving branch 0 untouched
(the slice assignment `eVecs[a:b,:,1] *= factor`). -/
def branch1_mul (f : Vec2) (p : BPair) : BPair := (p.1, vmul f p.2)

/-- In-place update of the tail segment: samples `0,…,m-1` are kept,
samples `m,…` are mapped through `g` (numpy slice assignment
`v[m:] = g(v[m:])`). -/
def seg_tail_map {α : Type} (g : α → α) (m : ℕ) (v : List α) : List α :=
  v.take m ++ (v.drop m).map g

/-- In-place update of the head segment: samples `0,…,m-1` are mapped
through `g`, samples `m,…` are kept (numpy slice assignment
`v[:m] = g(v[:m])`). -/
def seg_head_map {α : Type} (g : α → α) (m : ℕ) (v : List α) : List α :=
  (v.take m).map g ++ v.drop m

/-- Componentwise complex argument (`np.angle`) of a length-2 vector. -/
def argVec (v : Vec2) : ℝ × ℝ := (v.1.arg, v.2.arg)

/-- Componentwise difference of two real pairs. -/
def psub (a b : ℝ × ℝ) : ℝ × ℝ := (a.1 - b.1, a.2 - b.2)

/-- Componentwise `np.exp(1j * phase)` of a real phase pair. -/
def expIv (p : ℝ × ℝ) : Vec2 :=
  (Complex.exp (Complex.I * (p.1 : ℂ)), Complex.exp (Complex.I * (p.2 : ℂ)))

/-- `phase_0 = np.angle(eVecs[k,:,0]) - np.angle(eVecs[k+1,:,1])`
(`src/ep/base.py` lines 218-219): the phase jump from the branch-0
vector at sample `k` to the branch-1 vector at sample `k+1`. -/
def phase_0 (v : List BPair) (k : ℕ) : ℝ × ℝ :=
  psub (argVec (v.getD k default).1) (argVec (v.getD (k + 1) default).2)

/-- `phase_1 = np.angle(eVecs[k+1,:,0]) - np.angle(eVecs[k,:,1])`
(`src/ep/base.py` lines 220-221). -/
def phase_1 (v : List BPair) (k : ℕ) : ℝ × ℝ :=
  psub (argVec (v.getD (k + 1) default).1) (argVec (v.getD k default).2)

/-- The phase correction applied to one eigenvector array at a swap
index `k` (`src/ep/base.py` lines 228-232): with both phases computed
from the array before any mutation, branch 1 of samples `k+1,…` is
multiplied by `exp(+1j*phase_0)` and branch 1 of samples `0,…,k` by
`exp(+1j*phase_1)`. -/
def correct_phases (v : List BPair) (k : ℕ) : List BPair :=
  let f0 : Vec2 := expIv (phase_0 v k)
  let f1 : Vec2 := expIv (phase_1 v k)
  seg_head_map (branch1_mul f1) (k + 1) (seg_tail_map (branch1_mul f0) (k + 1) v)

/-- The branch interchange at a swap index `k`
(`src/ep/base.py` lines 234-238): the new branch 0 is the concatenation
of samples `0,…,k` of branch 0 with samples `k+1,…` of branch 1, and
symmetrically for the new branch 1. -/
def interchange {α : Type} (e : List (α × α)) (k : ℕ) : List (α × α) :=
  ((e.map Prod.fst).take (k + 1) ++ (e.map Prod.snd).drop (k + 1)).zip
    ((e.map Prod.snd).take (k + 1) ++ (e.map Prod.fst).drop (k + 1))

/-- One loop iteration of `for k in mask.nonzero()[0]`
(`src/ep/base.py` lines 216-238): phase-correct the right and the left
eigenvector arrays at `k`, then interchange branches of the eigenvalue,
right-eigenvector and left-eigenvector arrays independently. -/
def step_correction (S : EigenSystem) (k : ℕ) : EigenSystem :=
  ⟨interchange S.eVals k,
   interchange (correct_phases S.eVecs_r k) k,
   interchange (correct_phases S.eVecs_l k) k⟩

/-- The swap indices (`mask.nonzero()[0]`, `src/ep/base.py` lines
208-216): all `k` with `abs (eVals[k+1,0] - eVals[k,0]) > epsilon`,
computed once from the input arrays, in increasing order. -/
def diff_mask_indices (vals : List (ℂ × ℂ)) : List ℕ :=
  (List.range (vals.length - 1)).filter
    (fun k => epsilon < Complex.abs ((vals.getD (k + 1) (0, 0)).1 - (vals.getD k (0, 0)).1))

/-- The discontinuity-removal part of `Base._get_c_eigensystem`
(`src/ep/base.py` lines 204-238), acting on the provisional per-sample
eigensystem: detect swap indices from the first differences of the raw
branch-0 eigenvalue sequence, then apply `step_correction` at each of
them in increasing order, each step operating on the arrays produced by
the previous step. -/
def get_c_eigensystem (S : EigenSystem) : EigenSystem :=
  (diff_mask_indices S.eVals).foldl step_correction S

/-! ### `src/ep/base.py`: `_get_gain_state` (lines 268-286) -/

/-- Reversal of the branch axis: `e[..., ::-1]` on a two-branch axis
swaps branch 0 and branch 1 of every sample, for the eigenvalue and both
eigenvector arrays. -/
def swap_branches (S : EigenSystem) : EigenSystem :=
  ⟨S.eVals.map Prod.swap, S.eVecs_r.map Prod.swap, S.eVecs_l.map Prod.swap⟩

/-- `Base._get_gain_state` (`src/ep/base.py` lines 268-286): integrate
both eigenvalue branches over time with `c_trapz(·, dx=dt)`; if the
imaginary part of branch 0's integral is (strictly) smaller than branch
1's, interchange branches of all three arrays, otherwise do nothing. -/
def get_gain_state (dt : ℝ) (S : EigenSystem) : EigenSystem :=
  if (c_trapz (S.eVals.map Prod.fst) dt).im < (c_trapz (S.eVals.map Prod.snd) dt).im then
    swap_branches S
  else S

/-! ### `src/ep/base.py`: `_get_init_state` (lines 289-324) -/

/-- `Base._get_init_state` (`src/ep/base.py` lines 289-324).  The four
selectors `a`, `b`, `c`, `d` build the initial vector from the
right-eigenvector pair at sample 0; `c` and `d` are normalized by
`np.sqrt(eVec0_r.conj().dot(eVec0_r))` (the standard Hermitian norm).
For any other selector none of the branches assigns `eVec0_r` and the
final `return eVec0_r` raises `UnboundLocalError` (Python 2.7:
"local variable eVec0_r referenced before assignment"), embedded as an
`Except.error` carrying that message. -/
def get_init_state (S : EigenSystem) (init_state : String) : Except String Vec2 :=
  let r0 : Vec2 := (S.eVecs_r.getD 0 default).1
  let r1 : Vec2 := (S.eVecs_r.getD 0 default).2
  if init_state = "a" then Except.ok r0
  else if init_state = "b" then Except.ok r1
  else if init_state = "c" then
    let v : Vec2 := vadd r0 r1
    Except.ok (vdiv v (c_norm (conjVec v) v))
  else if init_state = "d" then
    let phase : ℂ := Complex.exp (Complex.I * (Real.pi : ℂ))
    let v : Vec2 := vadd r0 (smul phase r1)
    Except.ok (vdiv v (c_norm (conjVec v) v))
  else Except.error ("local variable eVec0_r referenced before assignment")

/-! ### `src/ep/waveguide.py`: the waveguide model -/

/-- Constructor arguments of `Waveguide(...)` together with the `Base`
keyword arguments it forwards (`T` is set to `L` by
`Base.__init__(self, T=L, **kwargs)`). -/
structure WaveguideArgs where
  L : ℝ
  d : ℝ
  eta : ℝ
  N : ℝ
  theta : ℝ
  x_EP : ℝ
  y_EP : ℝ
  x_R0 : ℝ
  y_R0 : ℝ
  init_phase : ℝ
  loop_type : String
  loop_direction : String
  init_state : String

/-- The attributes of a constructed `Waveguide` object that the loop
trajectory and the Hamiltonian read. -/
structure Waveguide where
  T : ℝ
  w : ℝ
  x_EP : ℝ
  y_EP : ℝ
  x_R0 : ℝ
  y_R0 : ℝ
  init_phase : ℝ
  loop_type : String
  loop_direction : String
  init_state : String
  d : ℝ
  L : ℝ
  eta : ℝ
  N : ℝ
  k0 : ℝ
  k1 : ℝ
  kr : ℝ
  theta_boundary : ℝ

/-- `Waveguide.k(n) = pi*np.sqrt(N**2 - n**2)`
(`src/ep/waveguide.py` lines 51-53). -/
def wg_k (N n : ℝ) : ℝ := Real.pi * Real.sqrt (N ^ 2 - n ^ 2)

/-- `Waveguide.__init__` (`src/ep/waveguide.py` lines 13-48) composed
with `Base.__init__` (`src/ep/base.py` lines 11-84): `Base` first stores
the caller-supplied `x_EP`, `y_EP`, `x_R0`, `y_R0` and computes the loop
frequency `w = 2*pi/T` (negated for `loop_direction == '+'`); then
`Waveguide` overwrites `x_EP` with
`eta / (2*sqrt(k0*k1*(1 + cos(theta))))`, sets `y_EP = 0`, and
overwrites both radii with `x_R0 = y_R0 = x_EP`. -/
def mkWaveguide (a : WaveguideArgs) : Waveguide :=
  let w0 : ℝ := 2 * Real.pi / a.L
  let k0 : ℝ := wg_k a.N 0
  let k1 : ℝ := wg_k a.N 1
  let xEP : ℝ := a.eta / (2 * Real.sqrt (k0 * k1 * (1 + Real.cos a.theta)))
  { T := a.L
    w := if a.loop_direction = "+" then -w0 else w0
    x_EP := xEP
    y_EP := 0
    x_R0 := xEP
    y_R0 := xEP
    init_phase := a.init_phase
    loop_type := a.loop_type
    loop_direction := a.loop_direction
    init_state := a.init_state
    d := a.d
    L := a.L
    eta := a.eta
    N := a.N
    k0 := k0
    k1 := k1
    kr := k0 - k1
    theta_boundary := a.theta }

/-- `np.arccos`: defined on `[-1, 1]`; outside that interval numpy
returns NaN (with a runtime warning, not an exception), embedded as
`none`. -/
def np_arccos (x : ℝ) : Option ℝ :=
  if x < -1 ∨ 1 < x then none else some (Real.arccos x)

/-- `Waveguide.get_cycle_parameters(t)` (`src/ep/waveguide.py` lines
95-151).  A raised exception (unknown `loop_type`, line 150) is an
`Except.error`; a NaN coordinate (from `np.arccos` outside its domain in
the `Varcircle_phase` branch, line 131) is `none`. -/
def get_cycle_parameters (W : Waveguide) (t : ℝ) :
    Except String (Option ℝ × Option ℝ) :=
  if W.loop_type = "Circle" then
    Except.ok (some (W.x_EP + W.x_R0 * Real.cos (W.w * t + W.init_phase)),
               some (W.y_EP + W.y_R0 * Real.sin (W.w * t + W.init_phase)))
  else if W.loop_type = "Ellipse" then
    Except.ok (some (W.x_EP * (1 - Real.cos (W.w * t))),
               some (W.y_EP - 8 * W.x_EP * Real.sin (W.w * t) + W.init_phase))
  else if W.loop_type = "Varcircle" then
    Except.ok (some (W.x_EP * (1 - Real.cos (W.w * t))),
               some (W.y_EP - W.x_EP * Real.sin (W.w * t) + W.init_phase))
  else if W.loop_type = "Varcircle_phase" then
    let R : ℝ := W.x_EP
    match np_arccos (1 - W.init_phase / R) with
    | some phase =>
        Except.ok (some (R * (1 - Real.cos (W.w * t + phase)) - W.init_phase),
                   some (W.y_EP - R * Real.sin (W.w * t + phase)))
    | none => Except.ok (none, none)
  else if W.loop_type = "Bell" then
    let sign : ℝ := if W.loop_direction = "+" then -1 else 1
    Except.ok (some (W.x_EP * (1 - Real.cos (W.w * t))),
               some (2 / 5 * sign * (sign * W.w * t / Real.pi - 1) + W.init_phase))
  else if W.loop_type = "Constant" then
    Except.ok (some W.x_EP, some W.y_EP)
  else if W.loop_type = "Constant_delta" then
    Except.ok (some (W.x_EP * (1 - Real.cos (W.w * t))), some W.y_EP)
  else
    Except.error ("Error: loop_type " ++ W.loop_type ++ " does not exist!")

/-- The coupling coefficient `B` of `Waveguide.H`
(`src/ep/waveguide.py` lines 81-82). -/
def waveguide_B (W : Waveguide) : ℂ :=
  -Complex.I * (Complex.exp (Complex.I * (W.theta_boundary : ℂ)) + 1) *
    ((W.kr : ℂ) / 2) * ((Real.sqrt (W.k0 / (2 * W.k1)) : ℝ) : ℂ)

/-- The 2×2 Hamiltonian matrix of `Waveguide.H` at explicit coordinates
`(eps, delta)` (`src/ep/waveguide.py` lines 84-92). -/
def Hxy (W : Waveguide) (eps delta : ℝ) : Mat2 :=
  let B : ℂ := waveguide_B W
  ((-(W.k0 : ℂ) - Complex.I * (W.eta : ℂ) / 2, B * (eps : ℂ)),
   ((starRingEnd ℂ) B * (eps : ℂ),
    -(W.k0 : ℂ) - (delta : ℂ) - Complex.I * (W.eta : ℂ) * (W.k0 : ℂ) / (2 * (W.k1 : ℂ))))

/-- `Waveguide.H(t, x=None, y=None)` (`src/ep/waveguide.py` lines
59-92): if both `x` and `y` are `None`, the coordinates come from
`get_cycle_parameters(t)` (propagating its exception, and propagating
NaN coordinates to a NaN-valued matrix, embedded `none`); otherwise the
supplied coordinates are used and `t` is ignored.  Supplying exactly one
of `x`, `y` makes the Python arithmetic on `None` raise a `TypeError`. -/
def waveguide_H (W : Waveguide) (t : ℝ) (x y : Option ℝ) :
    Except String (Option Mat2) :=
  match x, y with
  | none, none =>
      (get_cycle_parameters W t).map (fun c =>
        match c with
        | (some eps, some delta) => some (Hxy W eps delta)
        | _ => none)
  | some xv, some yv => Except.ok (some (Hxy W xv yv))
  | _, _ => Except.error ("TypeError: unsupported operand type for NoneType")

/-! ### Claim formalizations (statements taken from the specification,
to be confirmed or refuted against the embedded code) -/

/-- The corrected eigenvalue trajectory is continuous: for every pair of
adjacent samples, both branches jump by at most `epsilon`. -/
def continuous_branches (vals : List (ℂ × ℂ)) : Prop :=
  ∀ n, n + 1 < vals.length →
    Complex.abs ((vals.getD (n + 1) (0, 0)).1 - (vals.getD n (0, 0)).1) ≤ epsilon ∧
    Complex.abs ((vals.getD (n + 1) (0, 0)).2 - (vals.getD n (0, 0)).2) ≤ epsilon

/-- The raw solver output is the sample of two underlying eigenvalue
curves `A`, `B` whose only discontinuities are order swaps: at each
sample `n` the solver returns `(A n, B n)` or, when the order is swapped
(`s n = true`), `(B n, A n)`. -/
def swap_decorated (N : ℕ) (vals : List (ℂ × ℂ)) (A B : ℕ → ℂ) (s : ℕ → Bool) : Prop :=
  vals = (List.range N).map (fun n => if s n then (B n, A n) else (A n, B n))

/-- The underlying eigenvalue curves are smooth: adjacent samples of
each curve differ by at most `epsilon`. -/
def smooth_curves (N : ℕ) (A B : ℕ → ℂ) : Prop :=
  ∀ n, n + 1 < N →
    Complex.abs (A (n + 1) - A n) ≤ epsilon ∧ Complex.abs (B (n + 1) - B n) ≤ epsilon

/-- Every order-swap boundary is detected: whenever the raw ordering
changes between samples `n` and `n+1`, the raw branch-0 eigenvalue jump
there exceeds `epsilon`. -/
def boundaries_detected (N : ℕ) (A B : ℕ → ℂ) (s : ℕ → Bool) : Prop :=
  ∀ n, n + 1 < N → s (n + 1) ≠ s n →
    epsilon < Complex.abs ((if s (n + 1) then B (n + 1) else A (n + 1)) -
                            (if s n then B n else A n))

/-- Claim C2 as stated: for every trajectory whose underlying eigenvalue
curves are smooth and whose only discontinuities are order swaps of the
raw solver output, both corrected eigenvalue branches are continuous. -/
def claimC2 : Prop :=
  ∀ (S : EigenSystem) (N : ℕ) (A B : ℕ → ℂ) (s : ℕ → Bool),
    swap_decorated N S.eVals A B s → smooth_curves N A B →
    continuous_branches (get_c_eigensystem S).eVals

/-- Claim C4 as stated, in its checkable part: when the biorthogonal
product of the branch-0 pair is zero, `c_eig` never performs the
division by the zero product (so the conjugated raw left vector would
come back untouched, there being no failure value in the code to
return). -/
def claimC4 : Prop :=
  ∀ (eVals : ℂ × ℂ) (eVecs_l eVecs_r : BPair),
    dot (conjVec eVecs_l.1) eVecs_r.1 = 0 →
    (c_eig eVals eVecs_l eVecs_r).eVecs_l.1 = conjVec eVecs_l.1

/-- Claim C7 as stated: evaluating the `Varcircle_phase` loop with an
initial phase for which `|1 - phase/R| > 1` (with `R = x_EP` the
circling radius) fails with an error. -/
def claimC7 : Prop :=
  ∀ (W : Waveguide) (t : ℝ), W.loop_type = "Varcircle_phase" →
    1 < |1 - W.init_phase / W.x_EP| →
    ∃ e, get_cycle_parameters W t = Except.error e

/-- Claim C8 as stated: for every selector outside `{a, b, c, d}` the
initial-state construction fails with an error that identifies the
offending selector (every character of the selector occurs in the error
message). -/
def claimC8 : Prop :=
  ∀ (S : EigenSystem) (s : String), s ∉ (["a", "b", "c", "d"] : List String) →
    ∃ e, get_init_state S s = Except.error e ∧ s.toList ⊆ e.toList

/-- The waveguide of the `Varcircle_phase` counterexample: default
physical constants (`L=100`, `d=1`, `eta=0.05`, `N=1.5`, `theta=0`),
loop type `Varcircle_phase`, initial phase `-1`. -/
def wgVarphase : Waveguide :=
  mkWaveguide ⟨100, 1, 1 / 20, 3 / 2, 0, 0, 0, 4 / 5, 4 / 5, -1,
    "Varcircle_phase", "-", "a"⟩

/-- A `Constant`-loop waveguide with default physical constants, used to
exercise the implicit-coordinate branch of `Waveguide.H`. -/
def wgConstant : Waveguide :=
  mkWaveguide ⟨100, 1, 1 / 20, 3 / 2, 0, 0, 0, 4 / 5, 4 / 5, 0,
    "Constant", "-", "a"⟩

/-! ## Helper lemmas -/

/-- The principal complex square root squared recovers its argument on
nonzero inputs: this is why dividing by `c_norm(l,r)**2` is dividing by
the biorthogonal product itself. -/
theorem cpow_half_sq (x : ℂ) (h : x ≠ 0) : (x ^ ((1 : ℂ) / 2)) ^ (2 : ℕ) = x := by
  rw [sq, ← Complex.cpow_add _ _ h]
  norm_num

/-- The bilinear dot product after a componentwise division by a scalar. -/
theorem dot_vdiv (v w : Vec2) (z : ℂ) : dot (vdiv v z) w = dot v w / z := by
  simp [dot, vdiv, div_mul_eq_mul_div, div_add_div_same]

/-- The two-step trapezoidal recursion on a list with at least two
entries. -/
theorem trapz_cons_cons (x y : ℝ) (l : List ℝ) (dx : ℝ) :
    trapz (x :: y :: l) dx = dx * (x + y) / 2 + trapz (y :: l) dx := by
  simp [trapz]

/-- `trapz_complex` satisfies the same two-step recursion. -/
theorem trapz_complex_cons_cons (x y : ℂ) (l : List ℂ) (dx : ℝ) :
    trapz_complex (x :: y :: l) dx = (dx : ℂ) * (x + y) / 2 + trapz_complex (y :: l) dx := by
  simp [trapz_complex]

/-- Splitting a complex trapezoid term into real and imaginary parts. -/
theorem trapz_term_split (dx : ℝ) (z w : ℂ) :
    ((dx * (z.re + w.re) / 2 : ℝ) : ℂ) + ((dx * (z.im + w.im) / 2 : ℝ) : ℂ) * Complex.I
      = (dx : ℂ) * (z + w) / 2 := by
  apply Complex.ext <;> simp <;> ring

/-- `c_trapz` computes the complex trapezoidal integral: splitting into
real and imaginary parts and recombining loses nothing. -/
theorem c_trapz_eq_trapz_complex (f : List ℂ) (dx : ℝ) :
    c_trapz f dx = trapz_complex f dx := by
  induction f with
  | nil => simp [c_trapz, trapz, trapz_complex]
  | cons a t ih =>
    cases t with
    | nil => simp [c_trapz, trapz, trapz_complex]
    | cons b t2 =>
      have hre : (a :: b :: t2).map Complex.re = a.re :: b.re :: t2.map Complex.re := rfl
      have him : (a :: b :: t2).map Complex.im = a.im :: b.im :: t2.map Complex.im := rfl
      rw [c_trapz, hre, him, trapz_cons_cons, trapz_cons_cons, trapz_complex_cons_cons, ← ih,
        c_trapz, ← trapz_term_split dx a b]
      simp only [List.map_cons]
      push_cast
      ring

/-- Pointwise view of zipping two mapped copies of the same list. -/
theorem zip_map_getElem {α β γ : Type} (f : α → β) (g : α → γ) (t : List α) (n : ℕ) :
    ((t.map f).zip (t.map g))[n]? = t[n]?.map (fun x => (f x, g x)) := by
  induction t generalizing n with
  | nil => simp
  | cons a l ih =>
    cases n with
    | zero => simp
    | succ n => simpa using ih n

/-- `interchange` on the empty trajectory. -/
theorem interchange_nil {α : Type} (k : ℕ) : interchange ([] : List (α × α)) k = [] := rfl

/-- `interchange` at index `0` keeps the head sample and swaps every
later sample. -/
theorem interchange_cons_zero {α : Type} (a : α × α) (t : List (α × α)) :
    interchange (a :: t) 0 = a :: (t.map Prod.snd).zip (t.map Prod.fst) := by
  simp [interchange]

/-- `interchange` at a positive index keeps the head sample and recurses. -/
theorem interchange_cons_succ {α : Type} (a : α × α) (t : List (α × α)) (k : ℕ) :
    interchange (a :: t) (k + 1) = a :: interchange t k := by
  simp [interchange]

/-- Sample-level semantics of the branch interchange: samples `0,…,k`
are kept, samples `k+1,…` have their branches swapped. -/
theorem interchange_getElem {α : Type} (e : List (α × α)) (k n : ℕ) :
    (interchange e k)[n]? = (e[n]?).map (fun p => if n ≤ k then p else Prod.swap p) := by
  induction e generalizing k n with
  | nil => simp [interchange_nil]
  | cons a t ih =>
    cases k with
    | zero =>
      cases n with
      | zero => simp [interchange_cons_zero]
      | succ n =>
        rw [interchange_cons_zero]
        simp only [List.getElem?_cons_succ, zip_map_getElem]
        simp [Prod.swap]
    | succ k =>
      cases n with
      | zero => simp [interchange_cons_succ]
      | succ n =>
        rw [interchange_cons_succ]
        simp only [List.getElem?_cons_succ, ih k n]
        have hiff : n + 1 ≤ k + 1 ↔ n ≤ k := by omega
        by_cases hn : n ≤ k
        · simp [hn, hiff.mpr hn]
        · simp [hn, fun hc => hn (hiff.mp hc)]

/-- `interchange` preserves the number of samples. -/
theorem interchange_length {α : Type} (e : List (α × α)) (k : ℕ) :
    (interchange e k).length = e.length := by
  simp [interchange]
  omega

/-- Pointwise view of a tail-segment in-place map. -/
theorem seg_tail_map_getElem {α : Type} (g : α → α) (m : ℕ) (v : List α) (n : ℕ) :
    (seg_tail_map g m v)[n]? = if n < m then v[n]? else (v[n]?).map g := by
  induction v generalizing m n with
  | nil => simp [seg_tail_map]
  | cons a t ih =>
    cases m with
    | zero =>
      simp only [seg_tail_map, List.take_zero, List.drop_zero, List.nil_append, ←
        List.map_cons, List.getElem?_map]
      simp
    | succ m =>
      cases n with
      | zero => simp [seg_tail_map]
      | succ n =>
        have h1 : seg_tail_map g (m + 1) (a :: t) = a :: seg_tail_map g m t := by
          simp [seg_tail_map]
        rw [h1]
        simp only [List.getElem?_cons_succ, ih m n]
        have hiff : n + 1 < m + 1 ↔ n < m := by omega
        by_cases hn : n < m
        · simp [hn, hiff.mpr hn]
        · simp [hn, fun hc => hn (hiff.mp hc)]

/-- Pointwise view of a head-segment in-place map. -/
theorem seg_head_map_getElem {α : Type} (g : α → α) (m : ℕ) (v : List α) (n : ℕ) :
    (seg_head_map g m v)[n]? = if n < m then (v[n]?).map g else v[n]? := by
  induction v generalizing m n with
  | nil => simp [seg_head_map]
  | cons a t ih =>
    cases m with
    | zero => simp [seg_head_map]
    | succ m =>
      cases n with
      | zero => simp [seg_head_map]
      | succ n =>
        have h1 : seg_head_map g (m + 1) (a :: t) = g a :: seg_head_map g m t := by
          simp [seg_head_map]
        rw [h1]
        simp only [List.getElem?_cons_succ, ih m n]
        have hiff : n + 1 < m + 1 ↔ n < m := by omega
        by_cases hn : n < m
        · simp [hn, hiff.mpr hn]
        · simp [hn, fun hc => hn (hiff.mp hc)]

/-- Sample-level semantics of the phase correction at swap index `k`:
branch 1 of samples `0,…,k` is multiplied by `exp(1j*phase_1)`, branch 1
of samples `k+1,…` by `exp(1j*phase_0)`, branch 0 is untouched. -/
theorem correct_phases_getElem (v : List BPair) (k n : ℕ) :
    (correct_phases v k)[n]? = (v[n]?).map (fun p =>
      if n ≤ k then branch1_mul (expIv (phase_1 v k)) p
      else branch1_mul (expIv (phase_0 v k)) p) := by
  show (seg_head_map (branch1_mul (expIv (phase_1 v k))) (k + 1)
      (seg_tail_map (branch1_mul (expIv (phase_0 v k))) (k + 1) v))[n]? = _
  rw [seg_head_map_getElem, seg_tail_map_getElem]
  have hiff : n < k + 1 ↔ n ≤ k := by omega
  by_cases hn : n ≤ k
  · rw [if_pos (hiff.mpr hn), if_pos (hiff.mpr hn)]
    simp [hn]
  · have hnlt : ¬ n < k + 1 := fun hc => hn (hiff.mp hc)
    rw [if_neg hnlt, if_neg hnlt]
    simp [hn]

/-- Projecting `step_correction` on the eigenvalue array. -/
theorem step_correction_eVals (S : EigenSystem) (k : ℕ) :
    (step_correction S k).eVals = interchange S.eVals k := rfl

/-- The eigenvalue array of the folded correction is the fold of the
interchanges (the phase corrections touch only the eigenvector arrays). -/
theorem foldl_step_correction_eVals (ks : List ℕ) (S : EigenSystem) :
    (ks.foldl step_correction S).eVals = ks.foldl interchange S.eVals := by
  induction ks generalizing S with
  | nil => rfl
  | cons k ks ih => simpa [List.foldl_cons] using ih (step_correction S k)

/-- Folded interchanges preserve the number of samples. -/
theorem foldl_interchange_length {α : Type} (ks : List ℕ) (v : List (α × α)) :
    (ks.foldl interchange v).length = v.length := by
  induction ks generalizing v with
  | nil => rfl
  | cons k ks ih => simpa [List.foldl_cons, interchange_length] using ih (interchange v k)

/-- Sample-level semantics of a sequence of interchanges: sample `n` is
swapped once for every processed index `k < n`, so its final branches
are determined by the parity of that count. -/
theorem foldl_interchange_getElem {α : Type} (ks : List ℕ) (v : List (α × α)) (n : ℕ) :
    (ks.foldl interchange v)[n]? = (v[n]?).map (fun p =>
      if Even (ks.countP (fun k => decide (k < n))) then p else Prod.swap p) := by
  induction ks generalizing v with
  | nil => simp
  | cons x ks ih =>
    rw [List.foldl_cons, ih (interchange v x), interchange_getElem, Option.map_map,
      List.countP_cons]
    by_cases hx : x < n
    · have hnx : ¬ n ≤ x := by omega
      have hone : (if (fun k => decide (k < n)) x = true then 1 else 0) = 1 := by
        simp [hx]
      rw [hone]
      congr 1
      funext p
      simp only [Function.comp_apply, if_neg hnx]
      by_cases he : Even (List.countP (fun k => decide (k < n)) ks)
      · rw [if_pos he, if_neg (by simp [Nat.even_add_one, he])]
      · rw [if_neg he, if_pos (Nat.even_add_one.mpr he), Prod.swap_swap]
    · have hnx : n ≤ x := by omega
      have hone : (if (fun k => decide (k < n)) x = true then 1 else 0) = 0 := by
        simp [hx]
      rw [hone, Nat.add_zero]
      congr 1
      funext p
      simp [Function.comp, if_pos hnx]

/-- Restricting a range filter by an upper bound below the range bound. -/
theorem filter_lt_range (n m : ℕ) (h : n ≤ m) :
    (List.range m).filter (fun k => decide (k < n)) = List.range n := by
  induction m with
  | zero =>
    have hn : n = 0 := by omega
    subst hn
    rfl
  | succ m ih =>
    by_cases hn : n ≤ m
    · rw [List.range_succ, List.filter_append, ih hn]
      have hm : ¬ m < n := by omega
      simp [hm]
    · have hn1 : n = m + 1 := by omega
      subst hn1
      apply List.filter_eq_self.mpr
      intro a ha
      rw [List.mem_range] at ha
      simpa using ha

/-- Counting the processed swap indices below `n` among the filtered
range equals counting the filter predicate on `range n`. -/
theorem countP_lt_of_filter (q : ℕ → Bool) (m n : ℕ) (h : n ≤ m) :
    ((List.range m).filter q).countP (fun k => decide (k < n))
      = (List.range n).countP q := by
  rw [List.countP_filter]
  rw [show (fun k => decide (k < n) && q k) = (fun k => q k && decide (k < n)) from by
    funext k; rw [Bool.and_comm]]
  rw [← List.countP_filter, filter_lt_range n m h]

/-- Parity of the number of order-swap boundaries below `n` records
whether the raw ordering at `n` agrees with the raw ordering at `0`. -/
theorem parity_boundary (s : ℕ → Bool) :
    ∀ n, Even ((List.range n).countP (fun k => decide (s (k + 1) ≠ s k))) ↔ s n = s 0 := by
  intro n
  induction n with
  | zero => simp
  | succ n ih =>
    rw [List.range_succ, List.countP_append]
    have hsingle : List.countP (fun k => decide (s (k + 1) ≠ s k)) [n]
        = if s (n + 1) ≠ s n then 1 else 0 := by
      simp [List.countP_cons]
    rw [hsingle]
    by_cases hb : s (n + 1) = s n
    · rw [if_neg (by simp [hb]), Nat.add_zero, hb]
      exact ih
    · rw [if_pos hb, Nat.even_add_one, ih]
      cases hn : s n <;> cases hn1 : s (n + 1) <;> cases h0 : s 0 <;> simp_all

/-! ## Claim C10 — the `Waveguide` constructor overwrites radii and EP
center -/

/-- C10: after construction, `x_EP = eta/(2*sqrt(k0*k1*(1+cos theta)))`,
`y_EP = 0` and both radii equal `x_EP`, and the constructed object does
not depend on the caller-supplied `x_EP`, `y_EP`, `x_R0`, `y_R0` at all
(they are silently discarded). -/
theorem c10_radii_overwritten :
    ∀ (a : WaveguideArgs),
      ((mkWaveguide a).x_EP =
          a.eta / (2 * Real.sqrt (wg_k a.N 0 * wg_k a.N 1 * (1 + Real.cos a.theta))) ∧
        (mkWaveguide a).y_EP = 0 ∧
        (mkWaveguide a).x_R0 = (mkWaveguide a).x_EP ∧
        (mkWaveguide a).y_R0 = (mkWaveguide a).x_EP) ∧
      ∀ (xE yE xR yR : ℝ),
        mkWaveguide ⟨a.L, a.d, a.eta, a.N, a.theta, xE, yE, xR, yR,
          a.init_phase, a.loop_type, a.loop_direction, a.init_state⟩ = mkWaveguide a :=
  fun _ => ⟨⟨rfl, rfl, rfl, rfl⟩, fun _ _ _ _ => rfl⟩

/-! ## Claim C9 — `c_trapz` has no empty-input rejection -/

/-- C9 counterexample: `c_trapz` does not reject the empty sequence with
an error — there is no error path in the code at all, and on the empty
input the underlying `np.trapz` sums over an empty slice, so `c_trapz`
silently returns `0`. -/
theorem c9_counterexample_empty_input_accepted : c_trapz [] 1 = 0 := by
  simp [c_trapz, trapz]

/-- C9 (amended): `c_trapz` has no error condition at all; for every
complex sequence (the empty one included, where it returns `0`) it
returns the real trapezoidal integral of the real parts plus `i` times
the real trapezoidal integral of the imaginary parts, which equals the
complex trapezoidal integral. -/
theorem c9_c_trapz_total :
    ∀ (f : List ℂ) (dx : ℝ), c_trapz f dx = trapz_complex f dx ∧ c_trapz [] dx = 0 :=
  fun f dx => ⟨c_trapz_eq_trapz_complex f dx, by simp [c_trapz, trapz]⟩

/-! ## Claim C3 — `c_eig` biorthogonal normalization -/

/-- C3: on solver output with nonzero biorthogonal products, `c_eig`
rescales only the left eigenvectors — dividing each (conjugated) left
vector by the biorthogonal product `left_i · right_i` (via
`c_norm ** 2`) — so that afterwards `left_i · right_i = 1`, while the
eigenvalues and both right eigenvectors are returned exactly as
produced by the raw solve. -/
theorem c3_c_eig_normalizes_left_only :
    ∀ (eVals : ℂ × ℂ) (eVecs_l eVecs_r : BPair),
      dot (conjVec eVecs_l.1) eVecs_r.1 ≠ 0 →
      dot (conjVec eVecs_l.2) eVecs_r.2 ≠ 0 →
      dot ((c_eig eVals eVecs_l eVecs_r).eVecs_l.1) eVecs_r.1 = 1 ∧
      dot ((c_eig eVals eVecs_l eVecs_r).eVecs_l.2) eVecs_r.2 = 1 ∧
      (c_eig eVals eVecs_l eVecs_r).eVecs_r = eVecs_r ∧
      (c_eig eVals eVecs_l eVecs_r).eVals = eVals := by
  intro ev l r h0 h1
  refine ⟨?_, ?_, rfl, rfl⟩
  · show dot (vdiv (conjVec l.1) ((c_norm (conjVec l.1) r.1) ^ 2)) r.1 = 1
    rw [dot_vdiv, c_norm, cpow_half_sq _ h0, div_self h0]
  · show dot (vdiv (conjVec l.2) ((c_norm (conjVec l.2) r.2) ^ 2)) r.2 = 1
    rw [dot_vdiv, c_norm, cpow_half_sq _ h1, div_self h1]

/-- C3 witness: concrete solver output (identity eigenvector matrices)
with biorthogonal products equal to `1`. -/
theorem c3_witness :
    dot (conjVec (((1 : ℂ), (0 : ℂ)) : Vec2)) (((1 : ℂ), (0 : ℂ)) : Vec2) ≠ 0 ∧
    dot (conjVec (((0 : ℂ), (1 : ℂ)) : Vec2)) (((0 : ℂ), (1 : ℂ)) : Vec2) ≠ 0 ∧
    dot ((c_eig ((0 : ℂ), (0 : ℂ)) (((1 : ℂ), (0 : ℂ)), ((0 : ℂ), (1 : ℂ)))
          (((1 : ℂ), (0 : ℂ)), ((0 : ℂ), (1 : ℂ)))).eVecs_l.1)
        (((1 : ℂ), (0 : ℂ)) : Vec2) = 1 ∧
    (c_eig ((0 : ℂ), (0 : ℂ)) (((1 : ℂ), (0 : ℂ)), ((0 : ℂ), (1 : ℂ)))
        (((1 : ℂ), (0 : ℂ)), ((0 : ℂ), (1 : ℂ)))).eVecs_r
      = (((1 : ℂ), (0 : ℂ)), ((0 : ℂ), (1 : ℂ))) := by
  have h0 : dot (conjVec (((1 : ℂ), (0 : ℂ)) : Vec2)) (((1 : ℂ), (0 : ℂ)) : Vec2) ≠ 0 := by
    simp [dot, conjVec]
  have h1 : dot (conjVec (((0 : ℂ), (1 : ℂ)) : Vec2)) (((0 : ℂ), (1 : ℂ)) : Vec2) ≠ 0 := by
    simp [dot, conjVec]
  have h := c3_c_eig_normalizes_left_only ((0 : ℂ), (0 : ℂ))
    (((1 : ℂ), (0 : ℂ)), ((0 : ℂ), (1 : ℂ))) (((1 : ℂ), (0 : ℂ)), ((0 : ℂ), (1 : ℂ))) h0 h1
  exact ⟨h0, h1, h.1, h.2.2.1⟩

/-! ## Claim C4 — zero biorthogonal product is not detected -/

/-- C4 counterexample: `c_eig` has no check for a zero biorthogonal
product.  On solver output whose branch-0 product is zero it performs
the division anyway: the claim that the conjugated left vector cannot
have been divided (there being no failure path) is false — the returned
branch-0 left vector is the divided-by-zero garbage value, not the
untouched vector. -/
theorem c4_counterexample_division_performed : ¬ claimC4 := by
  intro h
  have hz : dot (conjVec (((1 : ℂ), (0 : ℂ)) : Vec2)) (((0 : ℂ), (1 : ℂ)) : Vec2) = 0 := by
    simp [dot, conjVec]
  have h2 := h ((0 : ℂ), (0 : ℂ)) (((1 : ℂ), (0 : ℂ)), ((0 : ℂ), (1 : ℂ)))
    (((0 : ℂ), (1 : ℂ)), ((1 : ℂ), (0 : ℂ))) hz
  have hN : c_norm (conjVec (((1 : ℂ), (0 : ℂ)) : Vec2)) (((0 : ℂ), (1 : ℂ)) : Vec2) = 0 := by
    rw [c_norm, hz, Complex.zero_cpow (by norm_num)]
  rw [show (c_eig ((0 : ℂ), (0 : ℂ)) (((1 : ℂ), (0 : ℂ)), ((0 : ℂ), (1 : ℂ)))
        (((0 : ℂ), (1 : ℂ)), ((1 : ℂ), (0 : ℂ)))).eVecs_l.1
      = vdiv (conjVec (((1 : ℂ), (0 : ℂ)) : Vec2))
          ((c_norm (conjVec (((1 : ℂ), (0 : ℂ)) : Vec2)) (((0 : ℂ), (1 : ℂ)) : Vec2)) ^ 2)
      from rfl, hN] at h2
  simp only [vdiv, conjVec] at h2
  have h3 := congrArg Prod.fst h2
  simp at h3

/-- C4 (amended): `c_eig` performs the rescaling division
unconditionally and reports nothing.  When the biorthogonal product of
an eigenpair is zero, the corresponding returned left eigenvector is the
divided-by-zero garbage value (the zero vector in this exact-arithmetic
embedding; NaN/inf in floating point), and the value is returned
silently — the right eigenvectors still come back unchanged. -/
theorem c4_zero_product_silent_garbage :
    ∀ (eVals : ℂ × ℂ) (eVecs_l eVecs_r : BPair),
      (dot (conjVec eVecs_l.1) eVecs_r.1 = 0 →
        (c_eig eVals eVecs_l eVecs_r).eVecs_l.1 = ((0 : ℂ), (0 : ℂ))) ∧
      (dot (conjVec eVecs_l.2) eVecs_r.2 = 0 →
        (c_eig eVals eVecs_l eVecs_r).eVecs_l.2 = ((0 : ℂ), (0 : ℂ))) ∧
      (c_eig eVals eVecs_l eVecs_r).eVecs_r = eVecs_r := by
  intro ev l r
  refine ⟨fun hz => ?_, fun hz => ?_, rfl⟩
  · show vdiv (conjVec l.1) ((c_norm (conjVec l.1) r.1) ^ 2) = ((0 : ℂ), (0 : ℂ))
    rw [c_norm, hz, Complex.zero_cpow (by norm_num)]
    simp [vdiv]
  · show vdiv (conjVec l.2) ((c_norm (conjVec l.2) r.2) ^ 2) = ((0 : ℂ), (0 : ℂ))
    rw [c_norm, hz, Complex.zero_cpow (by norm_num)]
    simp [vdiv]

/-- C4 witness: a concrete input whose two biorthogonal products are
both zero; `c_eig` returns zero left vectors and the unchanged right
vectors. -/
theorem c4_witness :
    dot (conjVec (((1 : ℂ), (0 : ℂ)) : Vec2)) (((0 : ℂ), (1 : ℂ)) : Vec2) = 0 ∧
    dot (conjVec (((0 : ℂ), (1 : ℂ)) : Vec2)) (((1 : ℂ), (0 : ℂ)) : Vec2) = 0 ∧
    (c_eig ((0 : ℂ), (0 : ℂ)) (((1 : ℂ), (0 : ℂ)), ((0 : ℂ), (1 : ℂ)))
        (((0 : ℂ), (1 : ℂ)), ((1 : ℂ), (0 : ℂ)))).eVecs_l.1 = ((0 : ℂ), (0 : ℂ)) ∧
    (c_eig ((0 : ℂ), (0 : ℂ)) (((1 : ℂ), (0 : ℂ)), ((0 : ℂ), (1 : ℂ)))
        (((0 : ℂ), (1 : ℂ)), ((1 : ℂ), (0 : ℂ)))).eVecs_l.2 = ((0 : ℂ), (0 : ℂ)) := by
  have hz0 : dot (conjVec (((1 : ℂ), (0 : ℂ)) : Vec2)) (((0 : ℂ), (1 : ℂ)) : Vec2) = 0 := by
    simp [dot, conjVec]
  have hz1 : dot (conjVec (((0 : ℂ), (1 : ℂ)) : Vec2)) (((1 : ℂ), (0 : ℂ)) : Vec2) = 0 := by
    simp [dot, conjVec]
  have h := c4_zero_product_silent_garbage ((0 : ℂ), (0 : ℂ))
    (((1 : ℂ), (0 : ℂ)), ((0 : ℂ), (1 : ℂ))) (((0 : ℂ), (1 : ℂ)), ((1 : ℂ), (0 : ℂ)))
  exact ⟨hz0, hz1, h.1 hz0, h.2.1 hz1⟩

/-! ## Claim C5 — gain/loss state selection -/

/-- C5: `_get_gain_state` swaps both eigenvalue branches and both
eigenvector branches exactly when the imaginary part of the trapezoidal
time-integral of the branch-0 eigenvalue sequence is strictly smaller
than that of branch 1; otherwise (larger or equal) nothing changes; and
applying the selector twice equals applying it once. -/
theorem c5_gain_state_selector (dt : ℝ) (S : EigenSystem) :
    ((c_trapz (S.eVals.map Prod.fst) dt).im < (c_trapz (S.eVals.map Prod.snd) dt).im →
        get_gain_state dt S = swap_branches S) ∧
    (¬ (c_trapz (S.eVals.map Prod.fst) dt).im < (c_trapz (S.eVals.map Prod.snd) dt).im →
        get_gain_state dt S = S) ∧
    get_gain_state dt (get_gain_state dt S) = get_gain_state dt S := by
  refine ⟨fun h => if_pos h, fun h => if_neg h, ?_⟩
  by_cases h : (c_trapz (S.eVals.map Prod.fst) dt).im < (c_trapz (S.eVals.map Prod.snd) dt).im
  · rw [show get_gain_state dt S = swap_branches S from if_pos h]
    have h1 : (swap_branches S).eVals.map Prod.fst = S.eVals.map Prod.snd := by
      simp [swap_branches, List.map_map]
    have h2 : (swap_branches S).eVals.map Prod.snd = S.eVals.map Prod.fst := by
      simp [swap_branches, List.map_map]
    rw [get_gain_state, h1, h2, if_neg (fun hc => absurd h (lt_asymm hc))]
  · rw [show get_gain_state dt S = S from if_neg h]
    exact if_neg h

/-- C5 witness: a single-sample trajectory; both integrals are `0`, so
the selector leaves everything in place. -/
theorem c5_witness :
    ¬ (c_trapz ((([(((0 : ℂ)), Complex.I)] : List (ℂ × ℂ))).map Prod.fst) 1).im <
        (c_trapz ((([(((0 : ℂ)), Complex.I)] : List (ℂ × ℂ))).map Prod.snd) 1).im ∧
    get_gain_state 1 ⟨[(((0 : ℂ)), Complex.I)], [], []⟩ = ⟨[(((0 : ℂ)), Complex.I)], [], []⟩ := by
  have hc : ¬ (c_trapz ((([(((0 : ℂ)), Complex.I)] : List (ℂ × ℂ))).map Prod.fst) 1).im <
      (c_trapz ((([(((0 : ℂ)), Complex.I)] : List (ℂ × ℂ))).map Prod.snd) 1).im := by
    simp [c_trapz, trapz]
  exact ⟨hc, (c5_gain_state_selector 1 ⟨[(((0 : ℂ)), Complex.I)], [], []⟩).2.1 hc⟩

/-! ## Claim C6 — `Waveguide.H` with and without explicit coordinates -/

/-- C6: with no explicit coordinates, `Waveguide.H(t)` is the
Hamiltonian evaluated at the loop coordinates produced by
`get_cycle_parameters(t)`; with both coordinates supplied, the result is
`Hxy` of those coordinates and the stored constants, independent of `t`
(the trajectory mapping is bypassed). -/
theorem c6_H_coordinate_dispatch (W : Waveguide) (t tt x y : ℝ) :
    (∀ e d : ℝ, get_cycle_parameters W t = Except.ok (some e, some d) →
        waveguide_H W t none none = Except.ok (some (Hxy W e d))) ∧
    waveguide_H W t (some x) (some y) = Except.ok (some (Hxy W x y)) ∧
    waveguide_H W t (some x) (some y) = waveguide_H W tt (some x) (some y) := by
  refine ⟨fun e d h => ?_, rfl, rfl⟩
  simp [waveguide_H, h, Except.map]

/-- C6 witness: the `Constant`-loop waveguide at `t = 0`. -/
theorem c6_witness :
    get_cycle_parameters wgConstant 0 = Except.ok (some wgConstant.x_EP, some wgConstant.y_EP) ∧
    waveguide_H wgConstant 0 none none
      = Except.ok (some (Hxy wgConstant wgConstant.x_EP wgConstant.y_EP)) ∧
    waveguide_H wgConstant 0 (some 1) (some 2) = Except.ok (some (Hxy wgConstant 1 2)) ∧
    waveguide_H wgConstant 0 (some 1) (some 2) = waveguide_H wgConstant 7 (some 1) (some 2) := by
  have hcp : get_cycle_parameters wgConstant 0
      = Except.ok (some wgConstant.x_EP, some wgConstant.y_EP) := by
    have hlt : wgConstant.loop_type = "Constant" := rfl
    simp [get_cycle_parameters, hlt]
  exact ⟨hcp, (c6_H_coordinate_dispatch wgConstant 0 7 1 2).1 _ _ hcp,
    (c6_H_coordinate_dispatch wgConstant 0 7 1 2).2.1,
    (c6_H_coordinate_dispatch wgConstant 0 7 1 2).2.2⟩

/-! ## Claim C7 — `Varcircle_phase` out-of-domain phase -/

/-- The counterexample waveguide's circling radius is strictly positive. -/
theorem wgVarphase_radius_pos : 0 < wgVarphase.x_EP := by
  have h0 : wg_k (3 / 2) 0 = Real.pi * Real.sqrt (9 / 4) := by norm_num [wg_k]
  have h1 : wg_k (3 / 2) 1 = Real.pi * Real.sqrt (5 / 4) := by norm_num [wg_k]
  have hx : wgVarphase.x_EP
      = (1 / 20) / (2 * Real.sqrt (wg_k (3 / 2) 0 * wg_k (3 / 2) 1 * (1 + Real.cos 0))) := rfl
  rw [hx, h0, h1, Real.cos_zero]
  have h94 : (0 : ℝ) < Real.sqrt (9 / 4) := Real.sqrt_pos.mpr (by norm_num)
  have h54 : (0 : ℝ) < Real.sqrt (5 / 4) := Real.sqrt_pos.mpr (by norm_num)
  have hpi := Real.pi_pos
  positivity

/-- The counterexample's phase argument lies strictly outside the
`arccos` domain: `1 < |1 - init_phase / R|`. -/
theorem wgVarphase_phase_out_of_domain :
    1 < 1 - wgVarphase.init_phase / wgVarphase.x_EP := by
  have hR := wgVarphase_radius_pos
  have hphase : wgVarphase.init_phase = -1 := rfl
  rw [hphase]
  have : 0 < 1 / wgVarphase.x_EP := by positivity
  have hdiv : -1 / wgVarphase.x_EP = -(1 / wgVarphase.x_EP) := by ring
  rw [hdiv]
  linarith

/-- An out-of-domain `Varcircle_phase` phase makes `np.arccos` yield
NaN, and the NaN propagates to both returned coordinates. -/
theorem varcircle_phase_nan_aux (W : Waveguide) (t : ℝ)
    (hlt : W.loop_type = "Varcircle_phase")
    (h : 1 < |1 - W.init_phase / W.x_EP|) :
    get_cycle_parameters W t = Except.ok (none, none) := by
  have harccos : np_arccos (1 - W.init_phase / W.x_EP) = none := by
    rw [np_arccos, if_pos]
    rcases lt_abs.mp h with h1 | h1
    · exact Or.inr h1
    · exact Or.inl (by linarith)
  simp [get_cycle_parameters, hlt, harccos]

/-- C7 (amended): for an initial phase with `|1 - phase/R| > 1`, the
`Varcircle_phase` branch raises nothing: `np.arccos` silently yields NaN
and `get_cycle_parameters` returns NaN coordinates (embedded `none`)
instead of failing. -/
theorem c7_varcircle_phase_returns_nan (W : Waveguide) (t : ℝ)
    (hlt : W.loop_type = "Varcircle_phase")
    (h : 1 < |1 - W.init_phase / W.x_EP|) :
    get_cycle_parameters W t = Except.ok (none, none) :=
  varcircle_phase_nan_aux W t hlt h

/-- C7 counterexample: the claim that an out-of-domain `Varcircle_phase`
phase produces an error is false — on a concrete waveguide with
`init_phase = -1` (so `1 - phase/R = 1 + 1/R > 1`) the code returns
`ok` with NaN coordinates, not an error. -/
theorem c7_counterexample_no_domain_error : ¬ claimC7 := by
  intro h
  have habs : 1 < |1 - wgVarphase.init_phase / wgVarphase.x_EP| :=
    lt_of_lt_of_le wgVarphase_phase_out_of_domain (le_abs_self _)
  obtain ⟨e, he⟩ := h wgVarphase 0 rfl habs
  rw [varcircle_phase_nan_aux wgVarphase 0 rfl habs] at he
  simp at he

/-- C7 witness: the concrete out-of-domain configuration on which the
amended behavior is exhibited. -/
theorem c7_witness :
    wgVarphase.loop_type = "Varcircle_phase" ∧
    1 < |1 - wgVarphase.init_phase / wgVarphase.x_EP| ∧
    get_cycle_parameters wgVarphase 0 = Except.ok (none, none) := by
  have habs : 1 < |1 - wgVarphase.init_phase / wgVarphase.x_EP| :=
    lt_of_lt_of_le wgVarphase_phase_out_of_domain (le_abs_self _)
  exact ⟨rfl, habs, c7_varcircle_phase_returns_nan wgVarphase 0 rfl habs⟩

/-! ## Claim C8 — unknown initial-state selector -/

/-- An unknown selector falls through every branch of
`_get_init_state` and hits the unbound-local failure. -/
theorem init_state_unknown_aux (S : EigenSystem) (s : String)
    (ha : s ≠ "a") (hb : s ≠ "b") (hc : s ≠ "c") (hd : s ≠ "d") :
    get_init_state S s
      = Except.error ("local variable eVec0_r referenced before assignment") := by
  simp [get_init_state, ha, hb, hc, hd]

/-- C8 (amended): for a selector outside `{a, b, c, d}`,
`_get_init_state` never returns a state vector, but the failure is the
fall-through `UnboundLocalError` on `eVec0_r`, whose message does not
mention the selector — it is not a configuration error identifying the
offending parameter. -/
theorem c8_unknown_selector_unbound_local (S : EigenSystem) (s : String)
    (ha : s ≠ "a") (hb : s ≠ "b") (hc : s ≠ "c") (hd : s ≠ "d") :
    get_init_state S s
      = Except.error ("local variable eVec0_r referenced before assignment") :=
  init_state_unknown_aux S s ha hb hc hd

/-- C8 counterexample: for the unknown selector `"z"` the raised error
is the fixed unbound-local message, which does not contain the selector,
so the claim that the failure identifies the offending parameter is
false. -/
theorem c8_counterexample_error_not_identifying : ¬ claimC8 := by
  intro h
  obtain ⟨e, he, hsub⟩ := h ⟨[], [], []⟩ "z" (by decide)
  rw [init_state_unknown_aux ⟨[], [], []⟩ "z"
    (by decide) (by decide) (by decide) (by decide)] at he
  have he2 : ("local variable eVec0_r referenced before assignment" : String) = e := by
    simpa using he
  rw [← he2] at hsub
  have : ¬ (("z" : String).toList ⊆
      ("local variable eVec0_r referenced before assignment" : String).toList) := by decide
  exact this hsub

/-- C8 witness: the amended behavior at the concrete unknown selector
`"z"`. -/
theorem c8_witness :
    ("z" : String) ≠ "a" ∧ ("z" : String) ≠ "b" ∧ ("z" : String) ≠ "c" ∧
    ("z" : String) ≠ "d" ∧
    get_init_state ⟨[], [], []⟩ "z"
      = Except.error ("local variable eVec0_r referenced before assignment") :=
  ⟨by decide, by decide, by decide, by decide,
    c8_unknown_selector_unbound_local ⟨[], [], []⟩ "z"
      (by decide) (by decide) (by decide) (by decide)⟩

/-! ## Claim C1 — swap detection and correction in
`_get_c_eigensystem` -/

/-- C1: the tracker detects swap events at exactly the indices `k`
where the absolute first difference of the (raw) branch-0 eigenvalue
sequence exceeds `epsilon = 1e-3`; the detected indices are processed in
strictly increasing order by a left fold, each correction operating on
the arrays produced by the previous one; each correction first applies
the phase correction to the branch-1 left and right eigenvectors
(samples `0,…,k` with `exp(1j*phase_1)`, samples `k+1,…` with
`exp(1j*phase_0)`) and then interchanges branches — keeping samples
`0,…,k` and swapping branches of samples `k+1,…`, i.e. concatenating the
pre-swap branch 0 with the post-swap branch 1 and vice versa —
independently for the eigenvalue, right-eigenvector and left-eigenvector
arrays. -/
theorem c1_tracker_swap_events (S : EigenSystem) :
    List.Sorted (· < ·) (diff_mask_indices S.eVals) ∧
    (∀ k, k ∈ diff_mask_indices S.eVals ↔
      k + 1 < S.eVals.length ∧
        epsilon < Complex.abs ((S.eVals.getD (k + 1) (0, 0)).1 - (S.eVals.getD k (0, 0)).1)) ∧
    get_c_eigensystem S = (diff_mask_indices S.eVals).foldl step_correction S ∧
    (∀ (T : EigenSystem) (k : ℕ),
      (step_correction T k).eVals = interchange T.eVals k ∧
      (step_correction T k).eVecs_r = interchange (correct_phases T.eVecs_r k) k ∧
      (step_correction T k).eVecs_l = interchange (correct_phases T.eVecs_l k) k) ∧
    (∀ (α : Type) (e : List (α × α)) (k n : ℕ),
      (interchange e k)[n]? = (e[n]?).map (fun p => if n ≤ k then p else Prod.swap p)) ∧
    (∀ (v : List BPair) (k n : ℕ),
      (correct_phases v k)[n]? = (v[n]?).map (fun p =>
        if n ≤ k then branch1_mul (expIv (phase_1 v k)) p
        else branch1_mul (expIv (phase_0 v k)) p)) := by
  refine ⟨?_, ?_, rfl, fun T k => ⟨rfl, rfl, rfl⟩,
    fun α e k n => interchange_getElem e k n,
    fun v k n => correct_phases_getElem v k n⟩
  · exact List.Pairwise.filter _ (List.pairwise_lt_range _)
  · intro k
    simp only [diff_mask_indices, List.mem_filter, List.mem_range, decide_eq_true_eq]
    constructor
    · rintro ⟨hk, hp⟩
      exact ⟨by omega, hp⟩
    · rintro ⟨hk, hp⟩
      exact ⟨by omega, hp⟩

/-! ## Claim C2 — continuity of the corrected branches -/

/-- `|9/10000| = 0.0009` over `ℂ`. -/
theorem abs_c_small : Complex.abs ((9 / 10000 : ℂ)) = 9 / 10000 := by
  rw [show (9 / 10000 : ℂ) = ((9 / 10000 : ℝ) : ℂ) by push_cast; ring]
  rw [Complex.abs_ofReal, abs_of_nonneg (by norm_num)]

/-- `|-9/10000| = 0.0009` over `ℂ`. -/
theorem abs_c_neg_small : Complex.abs ((-9 / 10000 : ℂ)) = 9 / 10000 := by
  rw [show (-9 / 10000 : ℂ) = ((-9 / 10000 : ℝ) : ℂ) by push_cast; ring]
  rw [Complex.abs_ofReal, abs_of_nonpos (by norm_num)]
  norm_num

/-- `|-27/10000| = 0.0027` over `ℂ`. -/
theorem abs_c_neg_27 : Complex.abs ((-27 / 10000 : ℂ)) = 27 / 10000 := by
  rw [show (-27 / 10000 : ℂ) = ((-27 / 10000 : ℝ) : ℂ) by push_cast; ring]
  rw [Complex.abs_ofReal, abs_of_nonpos (by norm_num)]
  norm_num

/-- C2 counterexample: a smooth two-sample swap-decorated trajectory on
which the branch-0 jump at the swap stays below the detection tolerance
while the branch-1 jump exceeds it.  No correction fires and the
corrected branch 1 jumps by `0.0027 > 1e-3`, so the claimed continuity
invariant is false. -/
theorem c2_counterexample_undetected_swap : ¬ claimC2 := by
  intro h
  have hcont := h ⟨[(((0 : ℂ)), (18 / 10000 : ℂ)), ((9 / 10000 : ℂ), (-9 / 10000 : ℂ))],
      [], []⟩ 2
    (fun n => if n = 0 then (0 : ℂ) else (-9 / 10000 : ℂ))
    (fun n => if n = 0 then (18 / 10000 : ℂ) else (9 / 10000 : ℂ))
    (fun n => decide (n ≠ 0))
    (by
      rw [swap_decorated]
      rfl)
    (by
      intro n hn
      have hn0 : n = 0 := by omega
      subst hn0
      constructor
      · rw [show (if (0 : ℕ) + 1 = 0 then (0 : ℂ) else (-9 / 10000 : ℂ)) -
            (if (0 : ℕ) = 0 then (0 : ℂ) else (-9 / 10000 : ℂ)) = (-9 / 10000 : ℂ) by
          norm_num]
        rw [abs_c_neg_small, epsilon]
        norm_num
      · rw [show (if (0 : ℕ) + 1 = 0 then (18 / 10000 : ℂ) else (9 / 10000 : ℂ)) -
            (if (0 : ℕ) = 0 then (18 / 10000 : ℂ) else (9 / 10000 : ℂ))
            = (-9 / 10000 : ℂ) by norm_num]
        rw [abs_c_neg_small, epsilon]
        norm_num)
  have hmask : diff_mask_indices [(((0 : ℂ)), (18 / 10000 : ℂ)),
      ((9 / 10000 : ℂ), (-9 / 10000 : ℂ))] = [] := by
    rw [diff_mask_indices]
    apply List.filter_eq_nil_iff.mpr
    intro a ha
    rw [List.mem_range] at ha
    simp only [List.length_cons, List.length_nil] at ha
    have ha0 : a = 0 := by omega
    subst ha0
    simp only [decide_eq_true_eq, List.getD_cons_succ, List.getD_cons_zero]
    intro hlt
    rw [show ((9 / 10000 : ℂ), (-9 / 10000 : ℂ)).1 - ((((0 : ℂ)), (18 / 10000 : ℂ)) : ℂ × ℂ).1
        = (9 / 10000 : ℂ) by norm_num] at hlt
    rw [abs_c_small, epsilon] at hlt
    norm_num at hlt
  have hid : get_c_eigensystem ⟨[(((0 : ℂ)), (18 / 10000 : ℂ)),
      ((9 / 10000 : ℂ), (-9 / 10000 : ℂ))], [], []⟩
      = ⟨[(((0 : ℂ)), (18 / 10000 : ℂ)), ((9 / 10000 : ℂ), (-9 / 10000 : ℂ))], [], []⟩ := by
    rw [get_c_eigensystem, hmask]
    rfl
  rw [hid] at hcont
  have hbad := (hcont 0 (by simp)).2
  simp only [List.getD_cons_succ, List.getD_cons_zero] at hbad
  rw [show ((9 / 10000 : ℂ), (-9 / 10000 : ℂ)).2 - ((((0 : ℂ)), (18 / 10000 : ℂ)) : ℂ × ℂ).2
      = (-27 / 10000 : ℂ) by norm_num] at hbad
  rw [abs_c_neg_27, epsilon] at hbad
  norm_num at hbad

/-- C2 (amended): under the stated hypotheses — smooth underlying
curves whose only discontinuities are order swaps — the corrected
branches are continuous provided additionally every swap boundary is
actually detected, i.e. the raw branch-0 eigenvalue jump exceeds the
tolerance at each sample where the raw ordering changes.  (Without that
extra hypothesis an order swap can stay below the branch-0 detection
threshold while the branch-1 jump exceeds the tolerance, as the
counterexample shows.) -/
theorem c2_continuity_of_detected_swaps :
    ∀ (S : EigenSystem) (N : ℕ) (A B : ℕ → ℂ) (s : ℕ → Bool),
      swap_decorated N S.eVals A B s → smooth_curves N A B →
      boundaries_detected N A B s →
      continuous_branches (get_c_eigensystem S).eVals := by
  intro S N A B s hdec hsm hdet
  rw [swap_decorated] at hdec
  have hlen : S.eVals.length = N := by rw [hdec]; simp
  have hget : ∀ n, n < N →
      S.eVals[n]? = some (if s n then (B n, A n) else (A n, B n)) := by
    intro n hn
    rw [hdec, List.getElem?_map, List.getElem?_range hn]
    rfl
  have hgetD : ∀ n, n < N →
      S.eVals.getD n (0, 0) = (if s n then (B n, A n) else (A n, B n)) := by
    intro n hn
    rw [List.getD_eq_getElem?_getD, hget n hn]
    rfl
  have hfst : ∀ n, ((if s n then (B n, A n) else (A n, B n)) : ℂ × ℂ).1
      = if s n then B n else A n := by
    intro n
    cases hs : s n <;> simp
  have hmask : diff_mask_indices S.eVals
      = (List.range (N - 1)).filter (fun k => decide (s (k + 1) ≠ s k)) := by
    rw [diff_mask_indices, hlen]
    apply List.filter_congr
    intro k hk
    rw [List.mem_range] at hk
    have hk1 : k + 1 < N := by omega
    rw [hgetD (k + 1) hk1, hgetD k (by omega), hfst, hfst, decide_eq_decide]
    constructor
    · intro hlt
      by_contra heq
      have heq2 : s (k + 1) = s k := heq
      rcases hsm k hk1 with ⟨hA, hB⟩
      cases hv : s k
      · rw [heq2, hv] at hlt
        simp only [Bool.false_eq_true, if_false] at hlt
        exact absurd hlt (not_lt.mpr hA)
      · rw [heq2, hv] at hlt
        simp only [if_true] at hlt
        exact absurd hlt (not_lt.mpr hB)
    · exact hdet k hk1
  have hvals : (get_c_eigensystem S).eVals
      = (diff_mask_indices S.eVals).foldl interchange S.eVals :=
    foldl_step_correction_eVals _ _
  have hout : ∀ n, n < N → (get_c_eigensystem S).eVals[n]?
      = some (if s 0 then (B n, A n) else (A n, B n)) := by
    intro n hn
    rw [hvals, foldl_interchange_getElem, hget n hn]
    have hcount : (diff_mask_indices S.eVals).countP (fun k => decide (k < n))
        = (List.range n).countP (fun k => decide (s (k + 1) ≠ s k)) := by
      rw [hmask, countP_lt_of_filter _ _ _ (by omega)]
    rw [Option.map_some', hcount]
    by_cases hp : Even ((List.range n).countP (fun k => decide (s (k + 1) ≠ s k)))
    · have hsn : s n = s 0 := (parity_boundary s n).mp hp
      rw [if_pos hp, hsn]
    · have hsn : ¬ s n = s 0 := fun hc => hp ((parity_boundary s n).mpr hc)
      rw [if_neg hp]
      cases h0 : s 0 <;> cases hn1 : s n <;> simp_all [Prod.swap]
  intro n hn1
  have hlen2 : (get_c_eigensystem S).eVals.length = N := by
    rw [hvals, foldl_interchange_length, hlen]
  rw [hlen2] at hn1
  have hg1 : (get_c_eigensystem S).eVals.getD (n + 1) (0, 0)
      = (if s 0 then (B (n + 1), A (n + 1)) else (A (n + 1), B (n + 1))) := by
    rw [List.getD_eq_getElem?_getD, hout (n + 1) hn1]
    rfl
  have hg0 : (get_c_eigensystem S).eVals.getD n (0, 0)
      = (if s 0 then (B n, A n) else (A n, B n)) := by
    rw [List.getD_eq_getElem?_getD, hout n (by omega)]
    rfl
  rw [hg1, hg0]
  rcases hsm n hn1 with ⟨hA, hB⟩
  cases h0 : s 0 <;> simp_all

/-- C2 witness for the amended claim: a two-sample trajectory built
from the constant curves `A = 0`, `B = 1` with a detected swap between
the samples; after correction both branches are continuous. -/
theorem c2_witness :
    swap_decorated 2 ([(((0 : ℂ)), (1 : ℂ)), (((1 : ℂ)), (0 : ℂ))])
      (fun _ => (0 : ℂ)) (fun _ => (1 : ℂ)) (fun n => decide (n ≠ 0)) ∧
    smooth_curves 2 (fun _ => (0 : ℂ)) (fun _ => (1 : ℂ)) ∧
    boundaries_detected 2 (fun _ => (0 : ℂ)) (fun _ => (1 : ℂ)) (fun n => decide (n ≠ 0)) ∧
    continuous_branches
      (get_c_eigensystem ⟨[(((0 : ℂ)), (1 : ℂ)), (((1 : ℂ)), (0 : ℂ))], [], []⟩).eVals := by
  have hdec : swap_decorated 2 ([(((0 : ℂ)), (1 : ℂ)), (((1 : ℂ)), (0 : ℂ))])
      (fun _ => (0 : ℂ)) (fun _ => (1 : ℂ)) (fun n => decide (n ≠ 0)) := by
    rw [swap_decorated]
    rfl
  have hsm : smooth_curves 2 (fun _ => (0 : ℂ)) (fun _ => (1 : ℂ)) := by
    intro n _
    constructor <;> simp [epsilon]
  have hdet : boundaries_detected 2 (fun _ => (0 : ℂ)) (fun _ => (1 : ℂ))
      (fun n => decide (n ≠ 0)) := by
    intro n hn _
    have hn0 : n = 0 := by omega
    subst hn0
    simp only [decide_eq_true_eq]
    rw [if_pos (by omega : (0 : ℕ) + 1 ≠ 0), if_neg (by simp : ¬ ((0 : ℕ) ≠ 0))]
    rw [show (1 : ℂ) - 0 = 1 by ring]
    rw [epsilon]
    rw [map_one Complex.abs]
    norm_num
  exact ⟨hdec, hsm, hdet,
    c2_continuity_of_detected_swaps ⟨[(((0 : ℂ)), (1 : ℂ)), (((1 : ℂ)), (0 : ℂ))], [], []⟩
      2 (fun _ => (0 : ℂ)) (fun _ => (1 : ℂ)) (fun n => decide (n ≠ 0)) hdec hsm hdet⟩

end EP
